import Mathlib

/-!
Verification of the xxhash2 crate: a safe Rust binding over the xxHash
hashing library, exposing one-shot hashes (`hash32`, `hash64`), incremental
hasher states (`State32`, `State64`) and canonical big-endian codecs
(`Hash32`, `Hash64`).

The crate under `src/` is a thin wrapper: the hashing engine itself (the
`XXH32`/`XXH64` block-processing, buffering and finalization routines) is a
vendored C library that is not part of `src/`.  Those routines are therefore
modelled here from the specification: the published xxHash algorithm with its
published magic constants, as the spec's §4 describes it (seed-derived lanes,
fixed-size block mixing, small-input fast path, tail processing, avalanche
mixing), with machine integers represented as `Nat` reduced modulo `2^32`
resp. `2^64` at every operation that wraps.
-/

namespace XXHash2

/-- Word moduli for 32-bit and 64-bit wrapping arithmetic. -/
def M32 : Nat := 4294967296

/-- Modulus for 64-bit wrapping arithmetic. -/
def M64 : Nat := 18446744073709551616

/-- Modelled from the spec: the five published 32-bit odd prime constants of
the xxHash algorithm (the C sources holding them are not under `src/`). -/
def PRIME32_1 : Nat := 2654435761

/-- Second 32-bit prime constant. -/
def PRIME32_2 : Nat := 2246822519

/-- Third 32-bit prime constant. -/
def PRIME32_3 : Nat := 3266489917

/-- Fourth 32-bit prime constant. -/
def PRIME32_4 : Nat := 668265263

/-- Fifth 32-bit prime constant. -/
def PRIME32_5 : Nat := 374761393

/-- Modelled from the spec: the five published 64-bit odd prime constants of
the xxHash algorithm. -/
def PRIME64_1 : Nat := 11400714785074694791

/-- Second 64-bit prime constant. -/
def PRIME64_2 : Nat := 14029467366897019727

/-- Third 64-bit prime constant. -/
def PRIME64_3 : Nat := 1609587929392839161

/-- Fourth 64-bit prime constant. -/
def PRIME64_4 : Nat := 9650029242287828579

/-- Fifth 64-bit prime constant. -/
def PRIME64_5 : Nat := 2870177450012600261

/-- Left rotation of a 32-bit word, on `Nat` reduced modulo `2^32`. -/
def rotl32 (x r : Nat) : Nat :=
  ((x % M32) * 2 ^ r + (x % M32) / 2 ^ (32 - r)) % M32

/-- Left rotation of a 64-bit word, on `Nat` reduced modulo `2^64`. -/
def rotl64 (x r : Nat) : Nat :=
  ((x % M64) * 2 ^ r + (x % M64) / 2 ^ (64 - r)) % M64

/-- Little-endian read of a 32-bit word from four bytes. -/
def u32le (b0 b1 b2 b3 : Nat) : Nat :=
  b0 + b1 * 256 + b2 * 65536 + b3 * 16777216

/-- Little-endian read of a 64-bit word from eight bytes. -/
def u64le (b0 b1 b2 b3 b4 b5 b6 b7 : Nat) : Nat :=
  b0 + b1 * 2 ^ 8 + b2 * 2 ^ 16 + b3 * 2 ^ 24 +
    b4 * 2 ^ 32 + b5 * 2 ^ 40 + b6 * 2 ^ 48 + b7 * 2 ^ 56

/-- Modelled from the spec: the 32-bit lane round function
`lane = rotate_left(lane + word * PRIME32_2, 13) * PRIME32_1`. -/
def round32 (acc lane : Nat) : Nat :=
  (rotl32 ((acc + lane * PRIME32_2) % M32) 13 * PRIME32_1) % M32

/-- Modelled from the spec: the 64-bit lane round function
`lane = rotate_left(lane + word * PRIME64_2, 31) * PRIME64_1`. -/
def round64 (acc lane : Nat) : Nat :=
  (rotl64 ((acc + lane * PRIME64_2) % M64) 31 * PRIME64_1) % M64

/-- The four 32-bit accumulator lanes. -/
structure Acc32 where
  v1 : Nat
  v2 : Nat
  v3 : Nat
  v4 : Nat
  deriving Repr, DecidableEq

/-- The four 64-bit accumulator lanes. -/
structure Acc64 where
  v1 : Nat
  v2 : Nat
  v3 : Nat
  v4 : Nat
  deriving Repr, DecidableEq

/-- Modelled from the spec: seed-derived initial 32-bit lanes, combining the
seed with the prime constants (`v4` is `seed - PRIME32_1` wrapping). -/
def initAcc32 (seed : Nat) : Acc32 :=
  { v1 := (seed + PRIME32_1 + PRIME32_2) % M32
    v2 := (seed + PRIME32_2) % M32
    v3 := seed % M32
    v4 := (seed + (M32 - PRIME32_1)) % M32 }

/-- Modelled from the spec: seed-derived initial 64-bit lanes. -/
def initAcc64 (seed : Nat) : Acc64 :=
  { v1 := (seed + PRIME64_1 + PRIME64_2) % M64
    v2 := (seed + PRIME64_2) % M64
    v3 := seed % M64
    v4 := (seed + (M64 - PRIME64_1)) % M64 }

/-- Mix one 16-byte block (the first 16 bytes of `l`) into the 32-bit lanes,
one little-endian word per lane. -/
def stripe32 (a : Acc32) (l : List Nat) : Acc32 :=
  match l with
  | b0 :: b1 :: b2 :: b3 :: b4 :: b5 :: b6 :: b7 ::
      b8 :: b9 :: b10 :: b11 :: b12 :: b13 :: b14 :: b15 :: _ =>
    { v1 := round32 a.v1 (u32le b0 b1 b2 b3)
      v2 := round32 a.v2 (u32le b4 b5 b6 b7)
      v3 := round32 a.v3 (u32le b8 b9 b10 b11)
      v4 := round32 a.v4 (u32le b12 b13 b14 b15) }
  | _ => a

/-- Mix one 32-byte block (the first 32 bytes of `l`) into the 64-bit lanes,
one little-endian word per lane. -/
def stripe64 (a : Acc64) (l : List Nat) : Acc64 :=
  match l with
  | b0 :: b1 :: b2 :: b3 :: b4 :: b5 :: b6 :: b7 ::
      b8 :: b9 :: b10 :: b11 :: b12 :: b13 :: b14 :: b15 ::
      b16 :: b17 :: b18 :: b19 :: b20 :: b21 :: b22 :: b23 ::
      b24 :: b25 :: b26 :: b27 :: b28 :: b29 :: b30 :: b31 :: _ =>
    { v1 := round64 a.v1 (u64le b0 b1 b2 b3 b4 b5 b6 b7)
      v2 := round64 a.v2 (u64le b8 b9 b10 b11 b12 b13 b14 b15)
      v3 := round64 a.v3 (u64le b16 b17 b18 b19 b20 b21 b22 b23)
      v4 := round64 a.v4 (u64le b24 b25 b26 b27 b28 b29 b30 b31) }
  | _ => a

/-- Consume every full 16-byte block of `l` into the 32-bit lanes, returning
the updated lanes and the remaining (fewer than 16) bytes. -/
def consumeStripes32 (a : Acc32) (l : List Nat) : Acc32 × List Nat :=
  if _h : 16 ≤ l.length then
    consumeStripes32 (stripe32 a (l.take 16)) (l.drop 16)
  else
    (a, l)
termination_by l.length
decreasing_by
  simp only [List.length_drop]
  omega

/-- Consume every full 32-byte block of `l` into the 64-bit lanes, returning
the updated lanes and the remaining (fewer than 32) bytes. -/
def consumeStripes64 (a : Acc64) (l : List Nat) : Acc64 × List Nat :=
  if _h : 32 ≤ l.length then
    consumeStripes64 (stripe64 a (l.take 32)) (l.drop 32)
  else
    (a, l)
termination_by l.length
decreasing_by
  simp only [List.length_drop]
  omega

/-- Modelled from the spec: converge the four 32-bit lanes into a single
accumulator by the fixed rotate-and-add sequence. -/
def mergeAcc32 (a : Acc32) : Nat :=
  (rotl32 a.v1 1 + rotl32 a.v2 7 + rotl32 a.v3 12 + rotl32 a.v4 18) % M32

/-- Modelled from the spec: one 64-bit merge step folding a lane into the
converged accumulator. -/
def mergeRound64 (acc v : Nat) : Nat :=
  ((acc ^^^ round64 0 v) * PRIME64_1 + PRIME64_4) % M64

/-- Modelled from the spec: converge the four 64-bit lanes into a single
accumulator (rotate-and-add, then one merge round per lane). -/
def mergeAcc64 (a : Acc64) : Nat :=
  mergeRound64 (mergeRound64 (mergeRound64 (mergeRound64
    ((rotl64 a.v1 1 + rotl64 a.v2 7 + rotl64 a.v3 12 + rotl64 a.v4 18) % M64)
    a.v1) a.v2) a.v3) a.v4

/-- Modelled from the spec: 32-bit tail processing of the remaining bytes at
4-byte then 1-byte granularity, each folding a prime-multiplied chunk into
the accumulator with a rotate. -/
def tail32 : Nat → List Nat → Nat
  | h, b0 :: b1 :: b2 :: b3 :: rest =>
    tail32 ((rotl32 ((h + u32le b0 b1 b2 b3 * PRIME32_3) % M32) 17 *
      PRIME32_4) % M32) rest
  | h, b :: rest =>
    tail32 ((rotl32 ((h + b * PRIME32_5) % M32) 11 * PRIME32_1) % M32) rest
  | h, [] => h

/-- Modelled from the spec: 64-bit tail processing of the remaining bytes at
8-byte, 4-byte then 1-byte granularity. -/
def tail64 : Nat → List Nat → Nat
  | h, b0 :: b1 :: b2 :: b3 :: b4 :: b5 :: b6 :: b7 :: rest =>
    tail64 ((rotl64 (h ^^^ round64 0 (u64le b0 b1 b2 b3 b4 b5 b6 b7)) 27 *
      PRIME64_1 + PRIME64_4) % M64) rest
  | h, b0 :: b1 :: b2 :: b3 :: rest =>
    tail64 ((rotl64 (h ^^^ ((u32le b0 b1 b2 b3 * PRIME64_1) % M64)) 23 *
      PRIME64_2 + PRIME64_3) % M64) rest
  | h, b :: rest =>
    tail64 ((rotl64 (h ^^^ ((b * PRIME64_5) % M64)) 11 * PRIME64_1) % M64) rest
  | h, [] => h

/-- Modelled from the spec: the 32-bit avalanche mixing (XOR-shift-multiply
finalization). -/
def avalanche32 (h : Nat) : Nat :=
  let h1 := h ^^^ (h / 2 ^ 15)
  let h2 := h1 * PRIME32_2 % M32
  let h3 := h2 ^^^ (h2 / 2 ^ 13)
  let h4 := h3 * PRIME32_3 % M32
  h4 ^^^ (h4 / 2 ^ 16)

/-- Modelled from the spec: the 64-bit avalanche mixing. -/
def avalanche64 (h : Nat) : Nat :=
  let h1 := h ^^^ (h / 2 ^ 33)
  let h2 := h1 * PRIME64_2 % M64
  let h3 := h2 ^^^ (h2 / 2 ^ 29)
  let h4 := h3 * PRIME64_3 % M64
  h4 ^^^ (h4 / 2 ^ 32)

/-- One-shot 32-bit hash (`xxhash2::hash32`, delegating to `XXH32`, which is
modelled from the spec): small inputs skip lane initialization and run the
tail path against the seed-derived constant; otherwise full blocks are mixed
into the four lanes, the lanes converge, the length is folded in, the tail is
processed and the avalanche applied. -/
def hash32 (data : List Nat) (seed : Nat) : Nat :=
  if 16 ≤ data.length then
    avalanche32 (tail32
      ((mergeAcc32 (consumeStripes32 (initAcc32 seed) data).1 + data.length) % M32)
      (consumeStripes32 (initAcc32 seed) data).2)
  else
    avalanche32 (tail32 ((seed % M32 + PRIME32_5 + data.length) % M32) data)

/-- One-shot 64-bit hash (`xxhash2::hash64`, delegating to `XXH64`, which is
modelled from the spec). -/
def hash64 (data : List Nat) (seed : Nat) : Nat :=
  if 32 ≤ data.length then
    avalanche64 (tail64
      ((mergeAcc64 (consumeStripes64 (initAcc64 seed) data).1 + data.length) % M64)
      (consumeStripes64 (initAcc64 seed) data).2)
  else
    avalanche64 (tail64 ((seed % M64 + PRIME64_5 + data.length) % M64) data)

/-- Incremental 32-bit hasher state (`xxhash2::State32`, wrapping the C
`XXH32_state_t`, modelled from the spec): four accumulator lanes, the
internal buffer of unconsumed trailing bytes, and the running total-length
counter.  The spec's seed is carried in lane `v3`, as the sub-block digest
path reads the seed from there. -/
structure State32 where
  acc : Acc32
  mem : List Nat
  total_len : Nat
  deriving Repr, DecidableEq

/-- Incremental 64-bit hasher state (`xxhash2::State64`). -/
structure State64 where
  acc : Acc64
  mem : List Nat
  total_len : Nat
  deriving Repr, DecidableEq

/-- `State32::new()`: the zero-initialized (`mem::zeroed`) state. -/
def State32.new : State32 :=
  ⟨⟨0, 0, 0, 0⟩, [], 0⟩

/-- `State64::new()`: the zero-initialized state. -/
def State64.new : State64 :=
  ⟨⟨0, 0, 0, 0⟩, [], 0⟩

/-- `State32::reset(seed)` (via `XXH32_reset`, modelled from the spec):
clears the buffer, zeroes the length counter and re-derives the lanes from
the seed. -/
def State32.reset (_ : State32) (seed : Nat) : State32 :=
  ⟨initAcc32 seed, [], 0⟩

/-- `State64::reset(seed)`. -/
def State64.reset (_ : State64) (seed : Nat) : State64 :=
  ⟨initAcc64 seed, [], 0⟩

/-- `State32::update(data)` (via `XXH32_update`, modelled from the spec):
appends `data` to the buffered remainder, mixes every full 16-byte block into
the lanes, re-buffers the remaining bytes and adds `data`'s length to the
total-length counter. -/
def State32.update (s : State32) (data : List Nat) : State32 :=
  ⟨(consumeStripes32 s.acc (s.mem ++ data)).1,
    (consumeStripes32 s.acc (s.mem ++ data)).2,
    s.total_len + data.length⟩

/-- `State64::update(data)`: the same with 32-byte blocks. -/
def State64.update (s : State64) (data : List Nat) : State64 :=
  ⟨(consumeStripes64 s.acc (s.mem ++ data)).1,
    (consumeStripes64 s.acc (s.mem ++ data)).2,
    s.total_len + data.length⟩

/-- `State32::finish()` (via `XXH32_digest`, modelled from the spec): a pure
read of the state — if fewer than one block was seen in total, the small
input path runs from the seed lane `v3`; otherwise the lanes converge; then
the total length is folded in, the buffered tail is processed and the
avalanche applied. -/
def State32.finish (s : State32) : Nat :=
  avalanche32 (tail32
    (((if s.total_len < 16 then (s.acc.v3 + PRIME32_5) % M32 else mergeAcc32 s.acc) +
      s.total_len) % M32)
    s.mem)

/-- `State64::finish()` (via `XXH64_digest`, modelled from the spec). -/
def State64.finish (s : State64) : Nat :=
  avalanche64 (tail64
    (((if s.total_len < 32 then (s.acc.v3 + PRIME64_5) % M64 else mergeAcc64 s.acc) +
      s.total_len) % M64)
    s.mem)

/-- The `XXH_OK` error code of the C library (declared in `xxhash-sys`). -/
def XXH_OK : Nat := 0

/-- The `XXH_ERROR` error code of the C library (declared in `xxhash-sys`). -/
def XXH_ERROR : Nat := 1

/-- Modelled from the spec: the C `XXH32_update` entry point, whose only
failure is a null input pointer (`none`); on any actual byte sequence it
updates the state and reports `XXH_OK`. -/
def XXH32_update_c (s : State32) (input : Option (List Nat)) : Nat × State32 :=
  match input with
  | none => (XXH_ERROR, s)
  | some data => (XXH_OK, s.update data)

/-- Modelled from the spec: the C `XXH64_update` entry point. -/
def XXH64_update_c (s : State64) (input : Option (List Nat)) : Nat × State64 :=
  match input with
  | none => (XXH_ERROR, s)
  | some data => (XXH_OK, s.update data)

/-- Modelled from the spec: the C `XXH32_reset` entry point, which always
succeeds. -/
def XXH32_reset_c (s : State32) (seed : Nat) : Nat × State32 :=
  (XXH_OK, s.reset seed)

/-- Modelled from the spec: the C `XXH64_reset` entry point. -/
def XXH64_reset_c (s : State64) (seed : Nat) : Nat × State64 :=
  (XXH_OK, s.reset seed)

/-- One call on an already-reset 32-bit hasher: an `update` with a byte
sequence, or a `finish`. -/
inductive Op32 where
  | update (data : List Nat) : Op32
  | finish : Op32

/-- One call on an already-reset 64-bit hasher. -/
inductive Op64 where
  | update (data : List Nat) : Op64
  | finish : Op64

/-- Run a sequence of calls on a 32-bit hasher, returning the final state and
the list of values returned by the `finish` calls.  `finish` takes the state
by shared reference (`&self` in the Rust source, a `*const` state in the C
signature), so it yields a value and leaves the state as it was. -/
def runOps32 (s : State32) : List Op32 → State32 × List Nat
  | [] => (s, [])
  | Op32.update data :: rest => runOps32 (s.update data) rest
  | Op32.finish :: rest =>
    ((runOps32 s rest).1, s.finish :: (runOps32 s rest).2)

/-- Run a sequence of calls on a 64-bit hasher. -/
def runOps64 (s : State64) : List Op64 → State64 × List Nat
  | [] => (s, [])
  | Op64.update data :: rest => runOps64 (s.update data) rest
  | Op64.finish :: rest =>
    ((runOps64 s rest).1, s.finish :: (runOps64 s rest).2)

/-- The bytes fed to `update` across a sequence of 32-bit hasher calls. -/
def opsData32 : List Op32 → List Nat
  | [] => []
  | Op32.update data :: rest => data ++ opsData32 rest
  | Op32.finish :: rest => opsData32 rest

/-- The bytes fed to `update` across a sequence of 64-bit hasher calls. -/
def opsData64 : List Op64 → List Nat
  | [] => []
  | Op64.update data :: rest => data ++ opsData64 rest
  | Op64.finish :: rest => opsData64 rest

/-- Canonical representation of a 32-bit hash (`xxhash2::Hash32`, wrapping
the C `XXH32_canonical_t`): a 4-byte digest. -/
structure Hash32 where
  digest : List Nat
  deriving Repr, DecidableEq

/-- Canonical representation of a 64-bit hash (`xxhash2::Hash64`). -/
structure Hash64 where
  digest : List Nat
  deriving Repr, DecidableEq

/-- Modelled from the spec: the C `XXH32_canonicalFromHash` writes the hash
value as 4 big-endian bytes, independent of host byte order. -/
def XXH32_canonicalFromHash (v : Nat) : List Nat :=
  [v / 16777216 % 256, v / 65536 % 256, v / 256 % 256, v % 256]

/-- Modelled from the spec: the C `XXH64_canonicalFromHash` writes the hash
value as 8 big-endian bytes. -/
def XXH64_canonicalFromHash (v : Nat) : List Nat :=
  [v / 72057594037927936 % 256, v / 281474976710656 % 256,
    v / 1099511627776 % 256, v / 4294967296 % 256,
    v / 16777216 % 256, v / 65536 % 256, v / 256 % 256, v % 256]

/-- Modelled from the spec: the C `XXH32_hashFromCanonical` reads the digest
bytes back as a big-endian integer. -/
def XXH32_hashFromCanonical (digest : List Nat) : Nat :=
  digest.foldl (fun acc b => acc * 256 + b) 0

/-- Modelled from the spec: the C `XXH64_hashFromCanonical`. -/
def XXH64_hashFromCanonical (digest : List Nat) : Nat :=
  digest.foldl (fun acc b => acc * 256 + b) 0

/-- `Hash32::bytes()`: the canonical digest bytes. -/
def Hash32.bytes (h : Hash32) : List Nat :=
  h.digest

/-- `Hash32::value()`: the digest read back as a 32-bit integer. -/
def Hash32.value (h : Hash32) : Nat :=
  XXH32_hashFromCanonical h.digest

/-- `impl From<u32> for Hash32`: canonical encoding of a hash value. -/
def Hash32.fromU32 (v : Nat) : Hash32 :=
  ⟨XXH32_canonicalFromHash v⟩

/-- `impl From<[u8; 4]> for Hash32`: wrap 4 canonical bytes. -/
def Hash32.fromBytes (b : List Nat) : Hash32 :=
  ⟨b⟩

/-- `Hash64::bytes()`. -/
def Hash64.bytes (h : Hash64) : List Nat :=
  h.digest

/-- `Hash64::value()`. -/
def Hash64.value (h : Hash64) : Nat :=
  XXH64_hashFromCanonical h.digest

/-- `impl From<u64> for Hash64`. -/
def Hash64.fromU64 (v : Nat) : Hash64 :=
  ⟨XXH64_canonicalFromHash v⟩

/-- `impl From<[u8; 8]> for Hash64`. -/
def Hash64.fromBytes (b : List Nat) : Hash64 :=
  ⟨b⟩

/-! Helper lemmas about block consumption. -/

theorem consumeStripes32_of_lt (a : Acc32) (l : List Nat) (h : l.length < 16) :
    consumeStripes32 a l = (a, l) := by
  rw [consumeStripes32]
  exact dif_neg (by omega)

theorem consumeStripes32_of_ge (a : Acc32) (l : List Nat) (h : 16 ≤ l.length) :
    consumeStripes32 a l =
      consumeStripes32 (stripe32 a (l.take 16)) (l.drop 16) := by
  conv_lhs => rw [consumeStripes32]
  rw [dif_pos h]

theorem consumeStripes64_of_lt (a : Acc64) (l : List Nat) (h : l.length < 32) :
    consumeStripes64 a l = (a, l) := by
  rw [consumeStripes64]
  exact dif_neg (by omega)

theorem consumeStripes64_of_ge (a : Acc64) (l : List Nat) (h : 32 ≤ l.length) :
    consumeStripes64 a l =
      consumeStripes64 (stripe64 a (l.take 32)) (l.drop 32) := by
  conv_lhs => rw [consumeStripes64]
  rw [dif_pos h]

theorem consumeStripes32_snd_length (a : Acc32) (l : List Nat) :
    (consumeStripes32 a l).2.length < 16 := by
  generalize hn : l.length = n
  induction n using Nat.strongRecOn generalizing a l with
  | _ n ih =>
    by_cases h : 16 ≤ l.length
    · rw [consumeStripes32_of_ge a l h]
      exact ih (l.length - 16) (by omega) _ _ (by simp only [List.length_drop])
    · rw [consumeStripes32_of_lt a l (by omega)]
      show l.length < 16
      omega

theorem consumeStripes64_snd_length (a : Acc64) (l : List Nat) :
    (consumeStripes64 a l).2.length < 32 := by
  generalize hn : l.length = n
  induction n using Nat.strongRecOn generalizing a l with
  | _ n ih =>
    by_cases h : 32 ≤ l.length
    · rw [consumeStripes64_of_ge a l h]
      exact ih (l.length - 32) (by omega) _ _ (by simp only [List.length_drop])
    · rw [consumeStripes64_of_lt a l (by omega)]
      show l.length < 32
      omega

theorem consumeStripes32_append (a : Acc32) (l b : List Nat) :
    consumeStripes32 (consumeStripes32 a l).1 ((consumeStripes32 a l).2 ++ b) =
      consumeStripes32 a (l ++ b) := by
  generalize hn : l.length = n
  induction n using Nat.strongRecOn generalizing a l with
  | _ n ih =>
    by_cases h : 16 ≤ l.length
    · rw [consumeStripes32_of_ge a l h,
        consumeStripes32_of_ge a (l ++ b) (by simp only [List.length_append]; omega),
        List.take_append_of_le_length (by omega),
        List.drop_append_of_le_length (by omega)]
      exact ih (l.length - 16) (by omega) _ _ (by simp only [List.length_drop])
    · rw [consumeStripes32_of_lt a l (by omega)]

theorem consumeStripes64_append (a : Acc64) (l b : List Nat) :
    consumeStripes64 (consumeStripes64 a l).1 ((consumeStripes64 a l).2 ++ b) =
      consumeStripes64 a (l ++ b) := by
  generalize hn : l.length = n
  induction n using Nat.strongRecOn generalizing a l with
  | _ n ih =>
    by_cases h : 32 ≤ l.length
    · rw [consumeStripes64_of_ge a l h,
        consumeStripes64_of_ge a (l ++ b) (by simp only [List.length_append]; omega),
        List.take_append_of_le_length (by omega),
        List.drop_append_of_le_length (by omega)]
      exact ih (l.length - 32) (by omega) _ _ (by simp only [List.length_drop])
    · rw [consumeStripes64_of_lt a l (by omega)]

theorem consumeStripes32_reconstruct (a : Acc32) (l : List Nat) :
    ∃ c : List Nat, c.length % 16 = 0 ∧ c ++ (consumeStripes32 a l).2 = l := by
  generalize hn : l.length = n
  induction n using Nat.strongRecOn generalizing a l with
  | _ n ih =>
    by_cases h : 16 ≤ l.length
    · rw [consumeStripes32_of_ge a l h]
      obtain ⟨c, hc, hrec⟩ :=
        ih (l.length - 16) (by omega) (stripe32 a (l.take 16)) (l.drop 16)
          (by simp only [List.length_drop])
      refine ⟨l.take 16 ++ c, ?_, ?_⟩
      · have h16 : (l.take 16).length = 16 := by
          simp only [List.length_take]
          omega
        simp only [List.length_append, h16]
        omega
      · rw [List.append_assoc, hrec, List.take_append_drop]
    · rw [consumeStripes32_of_lt a l (by omega)]
      exact ⟨[], by simp, by simp⟩

theorem consumeStripes64_reconstruct (a : Acc64) (l : List Nat) :
    ∃ c : List Nat, c.length % 32 = 0 ∧ c ++ (consumeStripes64 a l).2 = l := by
  generalize hn : l.length = n
  induction n using Nat.strongRecOn generalizing a l with
  | _ n ih =>
    by_cases h : 32 ≤ l.length
    · rw [consumeStripes64_of_ge a l h]
      obtain ⟨c, hc, hrec⟩ :=
        ih (l.length - 32) (by omega) (stripe64 a (l.take 32)) (l.drop 32)
          (by simp only [List.length_drop])
      refine ⟨l.take 32 ++ c, ?_, ?_⟩
      · have h32 : (l.take 32).length = 32 := by
          simp only [List.length_take]
          omega
        simp only [List.length_append, h32]
        omega
      · rw [List.append_assoc, hrec, List.take_append_drop]
    · rw [consumeStripes64_of_lt a l (by omega)]
      exact ⟨[], by simp, by simp⟩


/-! Helper lemmas about the incremental states. -/

theorem State32.update_update32 (s : State32) (d e : List Nat) :
    (s.update d).update e = s.update (d ++ e) := by
  simp only [State32.update, ← List.append_assoc, consumeStripes32_append,
    List.length_append, State32.mk.injEq]
  exact ⟨trivial, trivial, by omega⟩

theorem State64.update_update64 (s : State64) (d e : List Nat) :
    (s.update d).update e = s.update (d ++ e) := by
  simp only [State64.update, ← List.append_assoc, consumeStripes64_append,
    List.length_append, State64.mk.injEq]
  exact ⟨trivial, trivial, by omega⟩

theorem State32.update_nil32 (s : State32) (h : s.mem.length < 16) :
    s.update [] = s := by
  cases s with
  | mk acc mem total_len =>
    simp only [State32.update, List.append_nil]
    rw [consumeStripes32_of_lt _ _ h]
    simp

theorem State64.update_nil64 (s : State64) (h : s.mem.length < 32) :
    s.update [] = s := by
  cases s with
  | mk acc mem total_len =>
    simp only [State64.update, List.append_nil]
    rw [consumeStripes64_of_lt _ _ h]
    simp

theorem State32.update_mem_length32 (s : State32) (d : List Nat) :
    (s.update d).mem.length < 16 :=
  consumeStripes32_snd_length s.acc (s.mem ++ d)

theorem State64.update_mem_length64 (s : State64) (d : List Nat) :
    (s.update d).mem.length < 32 :=
  consumeStripes64_snd_length s.acc (s.mem ++ d)

theorem State32.foldl_update32 (s : State32) (h : s.mem.length < 16)
    (chunks : List (List Nat)) :
    List.foldl State32.update s chunks = s.update chunks.flatten := by
  induction chunks generalizing s with
  | nil => simpa using (State32.update_nil32 s h).symm
  | cons c cs ih =>
    simp only [List.foldl_cons, List.flatten_cons]
    rw [ih (s.update c) (State32.update_mem_length32 s c), State32.update_update32]

theorem State64.foldl_update64 (s : State64) (h : s.mem.length < 32)
    (chunks : List (List Nat)) :
    List.foldl State64.update s chunks = s.update chunks.flatten := by
  induction chunks generalizing s with
  | nil => simpa using (State64.update_nil64 s h).symm
  | cons c cs ih =>
    simp only [List.foldl_cons, List.flatten_cons]
    rw [ih (s.update c) (State64.update_mem_length64 s c), State64.update_update64]

theorem State32.finish_reset_update32 (s0 : State32) (seed : Nat) (d : List Nat) :
    ((s0.reset seed).update d).finish = hash32 d seed := by
  by_cases h : 16 ≤ d.length
  · simp only [State32.reset, State32.update, State32.finish, List.nil_append,
      Nat.zero_add, hash32, if_pos h, if_neg (show ¬ d.length < 16 by omega)]
  · have hcs : consumeStripes32 (initAcc32 seed) d = (initAcc32 seed, d) :=
      consumeStripes32_of_lt _ _ (by omega)
    simp only [State32.reset, State32.update, State32.finish, List.nil_append,
      Nat.zero_add, hash32, hcs, if_neg h, if_pos (show d.length < 16 by omega)]
    refine congrArg avalanche32 (congrArg (fun x => tail32 x d) ?_)
    simp only [initAcc32, M32, PRIME32_5]
    omega

theorem State64.finish_reset_update64 (s0 : State64) (seed : Nat) (d : List Nat) :
    ((s0.reset seed).update d).finish = hash64 d seed := by
  by_cases h : 32 ≤ d.length
  · simp only [State64.reset, State64.update, State64.finish, List.nil_append,
      Nat.zero_add, hash64, if_pos h, if_neg (show ¬ d.length < 32 by omega)]
  · have hcs : consumeStripes64 (initAcc64 seed) d = (initAcc64 seed, d) :=
      consumeStripes64_of_lt _ _ (by omega)
    simp only [State64.reset, State64.update, State64.finish, List.nil_append,
      Nat.zero_add, hash64, hcs, if_neg h, if_pos (show d.length < 32 by omega)]
    refine congrArg avalanche64 (congrArg (fun x => tail64 x d) ?_)
    simp only [initAcc64, M64, PRIME64_5]
    omega

theorem State32.finish_new_update32 (d : List Nat) (h : d.length < 16) :
    (State32.new.update d).finish = hash32 d 0 := by
  have hcs : consumeStripes32 (⟨0, 0, 0, 0⟩ : Acc32) d = (⟨0, 0, 0, 0⟩, d) :=
    consumeStripes32_of_lt _ _ h
  simp only [State32.new, State32.update, State32.finish, List.nil_append, hcs,
    Nat.zero_add, hash32, if_pos h, if_neg (show ¬ 16 ≤ d.length by omega)]
  refine congrArg avalanche32 (congrArg (fun x => tail32 x d) ?_)
  simp only [M32, PRIME32_5]

theorem State64.finish_new_update64 (d : List Nat) (h : d.length < 32) :
    (State64.new.update d).finish = hash64 d 0 := by
  have hcs : consumeStripes64 (⟨0, 0, 0, 0⟩ : Acc64) d = (⟨0, 0, 0, 0⟩, d) :=
    consumeStripes64_of_lt _ _ h
  simp only [State64.new, State64.update, State64.finish, List.nil_append, hcs,
    Nat.zero_add, hash64, if_pos h, if_neg (show ¬ 32 ≤ d.length by omega)]
  refine congrArg avalanche64 (congrArg (fun x => tail64 x d) ?_)
  simp only [M64, PRIME64_5]

theorem runOps32_append (s : State32) (xs ys : List Op32) :
    runOps32 s (xs ++ ys) =
      ((runOps32 (runOps32 s xs).1 ys).1,
        (runOps32 s xs).2 ++ (runOps32 (runOps32 s xs).1 ys).2) := by
  induction xs generalizing s with
  | nil => simp [runOps32]
  | cons op rest ih =>
    cases op with
    | update d =>
      simp only [List.cons_append, runOps32]
      exact ih (s.update d)
    | finish =>
      simp only [List.cons_append, runOps32, List.append_eq]
      rw [ih s]

theorem runOps64_append (s : State64) (xs ys : List Op64) :
    runOps64 s (xs ++ ys) =
      ((runOps64 (runOps64 s xs).1 ys).1,
        (runOps64 s xs).2 ++ (runOps64 (runOps64 s xs).1 ys).2) := by
  induction xs generalizing s with
  | nil => simp [runOps64]
  | cons op rest ih =>
    cases op with
    | update d =>
      simp only [List.cons_append, runOps64]
      exact ih (s.update d)
    | finish =>
      simp only [List.cons_append, runOps64, List.append_eq]
      rw [ih s]

theorem runOps32_mem (ops : List Op32) : ∀ s : State32, s.mem.length < 16 →
    (runOps32 s ops).1.mem.length < 16 ∧
      ∃ c : List Nat, c.length % 16 = 0 ∧
        c ++ (runOps32 s ops).1.mem = s.mem ++ opsData32 ops := by
  induction ops with
  | nil =>
    intro s h
    exact ⟨h, [], by simp, by simp [runOps32, opsData32]⟩
  | cons op rest ih =>
    intro s h
    cases op with
    | update d =>
      obtain ⟨h1, c', hc', hrec⟩ := ih (s.update d) (State32.update_mem_length32 s d)
      obtain ⟨c0, hc0, hrec0⟩ := consumeStripes32_reconstruct s.acc (s.mem ++ d)
      have hrec0m : c0 ++ (s.update d).mem = s.mem ++ d := hrec0
      refine ⟨by simpa [runOps32] using h1, c0 ++ c',
        by simp only [List.length_append]; omega, ?_⟩
      simp only [runOps32, opsData32]
      calc (c0 ++ c') ++ (runOps32 (s.update d) rest).1.mem
          = c0 ++ (c' ++ (runOps32 (s.update d) rest).1.mem) := by
            rw [List.append_assoc]
        _ = c0 ++ ((s.update d).mem ++ opsData32 rest) := by rw [hrec]
        _ = (c0 ++ (s.update d).mem) ++ opsData32 rest := by
            rw [List.append_assoc]
        _ = (s.mem ++ d) ++ opsData32 rest := by rw [hrec0m]
        _ = s.mem ++ (d ++ opsData32 rest) := by rw [List.append_assoc]
    | finish =>
      simpa [runOps32, opsData32] using ih s h

theorem runOps64_mem (ops : List Op64) : ∀ s : State64, s.mem.length < 32 →
    (runOps64 s ops).1.mem.length < 32 ∧
      ∃ c : List Nat, c.length % 32 = 0 ∧
        c ++ (runOps64 s ops).1.mem = s.mem ++ opsData64 ops := by
  induction ops with
  | nil =>
    intro s h
    exact ⟨h, [], by simp, by simp [runOps64, opsData64]⟩
  | cons op rest ih =>
    intro s h
    cases op with
    | update d =>
      obtain ⟨h1, c', hc', hrec⟩ := ih (s.update d) (State64.update_mem_length64 s d)
      obtain ⟨c0, hc0, hrec0⟩ := consumeStripes64_reconstruct s.acc (s.mem ++ d)
      have hrec0m : c0 ++ (s.update d).mem = s.mem ++ d := hrec0
      refine ⟨by simpa [runOps64] using h1, c0 ++ c',
        by simp only [List.length_append]; omega, ?_⟩
      simp only [runOps64, opsData64]
      calc (c0 ++ c') ++ (runOps64 (s.update d) rest).1.mem
          = c0 ++ (c' ++ (runOps64 (s.update d) rest).1.mem) := by
            rw [List.append_assoc]
        _ = c0 ++ ((s.update d).mem ++ opsData64 rest) := by rw [hrec]
        _ = (c0 ++ (s.update d).mem) ++ opsData64 rest := by
            rw [List.append_assoc]
        _ = (s.mem ++ d) ++ opsData64 rest := by rw [hrec0m]
        _ = s.mem ++ (d ++ opsData64 rest) := by rw [List.append_assoc]
    | finish =>
      simpa [runOps64, opsData64] using ih s h

/-! Claim theorems. -/

/-- Claim C1: for every byte sequence, every seed and every partition of the
sequence into consecutive chunks, resetting a hasher and feeding the chunks
via successive `update` calls yields the same `finish()` result as a single
`update` of the whole sequence, and both equal the one-shot `hash32`
(resp. `hash64`) of the sequence with that seed. -/
theorem chunking_invariance (s0 : State32) (t0 : State64) (seed : Nat)
    (chunks : List (List Nat)) :
    (List.foldl State32.update (s0.reset seed) chunks).finish =
        hash32 chunks.flatten seed ∧
    ((s0.reset seed).update chunks.flatten).finish = hash32 chunks.flatten seed ∧
    (List.foldl State64.update (t0.reset seed) chunks).finish =
        hash64 chunks.flatten seed ∧
    ((t0.reset seed).update chunks.flatten).finish = hash64 chunks.flatten seed := by
  refine ⟨?_, State32.finish_reset_update32 s0 seed _, ?_,
    State64.finish_reset_update64 t0 seed _⟩
  · rw [State32.foldl_update32 _ (by simp [State32.reset]) chunks,
      State32.finish_reset_update32]
  · rw [State64.foldl_update64 _ (by simp [State64.reset]) chunks,
      State64.finish_reset_update64]

/-- Claim C2: the one-shot functions return the published fixed vectors for
the empty input, `[1]` and `[1, 2, 3, 4]` at seed 0, at both widths. -/
theorem known_vectors :
    hash32 [] 0 = 46947589 ∧ hash64 [] 0 = 17241709254077376921 ∧
    hash32 [1] 0 = 949155633 ∧ hash64 [1] 0 = 9962287286179718960 ∧
    hash32 [1, 2, 3, 4] 0 = 4271296924 ∧
    hash64 [1, 2, 3, 4] 0 = 6063570110359613137 := by
  refine ⟨?_, ?_, ?_, ?_, ?_, ?_⟩ <;> decide

/-- Claim C3: the canonical codec is a bijection in both directions at both
widths — decoding an encoded hash value gives the value back, and encoding a
decoded 4-byte (resp. 8-byte) digest gives the digest back. -/
theorem canonical_roundtrip :
    (∀ v : Nat, v < M32 → (Hash32.fromU32 v).value = v) ∧
    (∀ b0 b1 b2 b3 : Nat, b0 < 256 → b1 < 256 → b2 < 256 → b3 < 256 →
      Hash32.fromU32 ((Hash32.fromBytes [b0, b1, b2, b3]).value) =
        Hash32.fromBytes [b0, b1, b2, b3]) ∧
    (∀ v : Nat, v < M64 → (Hash64.fromU64 v).value = v) ∧
    (∀ b0 b1 b2 b3 b4 b5 b6 b7 : Nat, b0 < 256 → b1 < 256 → b2 < 256 →
      b3 < 256 → b4 < 256 → b5 < 256 → b6 < 256 → b7 < 256 →
      Hash64.fromU64 ((Hash64.fromBytes [b0, b1, b2, b3, b4, b5, b6, b7]).value) =
        Hash64.fromBytes [b0, b1, b2, b3, b4, b5, b6, b7]) := by
  refine ⟨?_, ?_, ?_, ?_⟩
  · intro v hv
    simp only [M32] at hv
    simp only [Hash32.fromU32, Hash32.value, XXH32_canonicalFromHash,
      XXH32_hashFromCanonical, List.foldl_cons, List.foldl_nil]
    omega
  · intro b0 b1 b2 b3 h0 h1 h2 h3
    simp only [Hash32.fromU32, Hash32.fromBytes, Hash32.value,
      XXH32_canonicalFromHash, XXH32_hashFromCanonical, List.foldl_cons,
      List.foldl_nil, Hash32.mk.injEq, List.cons.injEq, and_true]
    omega
  · intro v hv
    simp only [M64] at hv
    simp only [Hash64.fromU64, Hash64.value, XXH64_canonicalFromHash,
      XXH64_hashFromCanonical, List.foldl_cons, List.foldl_nil]
    omega
  · intro b0 b1 b2 b3 b4 b5 b6 b7 h0 h1 h2 h3 h4 h5 h6 h7
    simp only [Hash64.fromU64, Hash64.fromBytes, Hash64.value,
      XXH64_canonicalFromHash, XXH64_hashFromCanonical, List.foldl_cons,
      List.foldl_nil, Hash64.mk.injEq, List.cons.injEq, and_true]
    omega

/-- Witness for claim C3: the round trips at `0x12345678` and at the digests
`[0x12, 0x34, 0x56, 0x78]` and `[1, 2, 3, 4, 5, 6, 7, 8]`. -/
theorem canonical_roundtrip_witness :
    ((0x12345678 : Nat) < M32 ∧ (Hash32.fromU32 0x12345678).value = 0x12345678) ∧
    (Hash32.fromU32 ((Hash32.fromBytes [0x12, 0x34, 0x56, 0x78]).value) =
      Hash32.fromBytes [0x12, 0x34, 0x56, 0x78]) ∧
    ((0x12345678 : Nat) < M64 ∧ (Hash64.fromU64 0x12345678).value = 0x12345678) ∧
    (Hash64.fromU64 ((Hash64.fromBytes [1, 2, 3, 4, 5, 6, 7, 8]).value) =
      Hash64.fromBytes [1, 2, 3, 4, 5, 6, 7, 8]) :=
  ⟨⟨by decide, canonical_roundtrip.1 0x12345678 (by decide)⟩,
    canonical_roundtrip.2.1 0x12 0x34 0x56 0x78
      (by decide) (by decide) (by decide) (by decide),
    ⟨by decide, canonical_roundtrip.2.2.1 0x12345678 (by decide)⟩,
    canonical_roundtrip.2.2.2 1 2 3 4 5 6 7 8 (by decide) (by decide)
      (by decide) (by decide) (by decide) (by decide) (by decide) (by decide)⟩

/-- Claim C4: the canonical form is the big-endian encoding at fixed width —
`0x12345678` encodes to `[0x12, 0x34, 0x56, 0x78]` at 32 bits and to
`[0, 0, 0, 0, 0x12, 0x34, 0x56, 0x78]` at 64 bits, and in general byte `i`
of the encoding is the `i`-th most significant byte of the value. -/
theorem canonical_big_endian :
    (Hash32.fromU32 0x12345678).bytes = [0x12, 0x34, 0x56, 0x78] ∧
    (Hash64.fromU64 0x12345678).bytes = [0, 0, 0, 0, 0x12, 0x34, 0x56, 0x78] ∧
    (∀ v i : Nat, v < M32 → i < 4 →
      (Hash32.fromU32 v).bytes.getD i 0 = v / 256 ^ (3 - i) % 256) ∧
    (∀ v i : Nat, v < M64 → i < 8 →
      (Hash64.fromU64 v).bytes.getD i 0 = v / 256 ^ (7 - i) % 256) := by
  refine ⟨by decide, by decide, ?_, ?_⟩
  · intro v i hv hi
    interval_cases i <;>
      · simp only [Hash32.fromU32, Hash32.bytes, XXH32_canonicalFromHash,
          List.getD, List.getElem?_cons_zero, List.getElem?_cons_succ,
          Option.getD_some]
        norm_num
  · intro v i hv hi
    interval_cases i <;>
      · simp only [Hash64.fromU64, Hash64.bytes, XXH64_canonicalFromHash,
          List.getD, List.getElem?_cons_zero, List.getElem?_cons_succ,
          Option.getD_some]
        norm_num

/-- Witness for claim C4: the index law evaluated at `0x12345678`, index 1 of
the 32-bit form and index 4 of the 64-bit form. -/
theorem canonical_big_endian_witness :
    ((0x12345678 : Nat) < M32 ∧ (1 : Nat) < 4 ∧
      (Hash32.fromU32 0x12345678).bytes.getD 1 0 =
        0x12345678 / 256 ^ (3 - 1) % 256) ∧
    ((0x12345678 : Nat) < M64 ∧ (4 : Nat) < 8 ∧
      (Hash64.fromU64 0x12345678).bytes.getD 4 0 =
        0x12345678 / 256 ^ (7 - 4) % 256) :=
  ⟨⟨by decide, by decide,
      canonical_big_endian.2.2.1 0x12345678 1 (by decide) (by decide)⟩,
    ⟨by decide, by decide,
      canonical_big_endian.2.2.2 0x12345678 4 (by decide) (by decide)⟩⟩

/-- Claim C5: `finish()` is a read-only operation — it leaves the lanes,
buffer and length counter unchanged (the Rust method takes `&self` and the C
digest takes a `*const` state), so a `finish` inserted anywhere in a call
sequence does not change the resulting state, two consecutive `finish` calls
return the same value, and later `update` calls behave as if `finish` had
never been called. -/
theorem finish_read_only (s : State32) (t : State64)
    (ops1 ops2 : List Op32) (qs1 qs2 : List Op64) :
    (runOps32 s (ops1 ++ Op32.finish :: ops2)).1 =
        (runOps32 s (ops1 ++ ops2)).1 ∧
    (runOps32 s (ops1 ++ [Op32.finish, Op32.finish])).2 =
        (runOps32 s ops1).2 ++
          [(runOps32 s ops1).1.finish, (runOps32 s ops1).1.finish] ∧
    (runOps64 t (qs1 ++ Op64.finish :: qs2)).1 =
        (runOps64 t (qs1 ++ qs2)).1 ∧
    (runOps64 t (qs1 ++ [Op64.finish, Op64.finish])).2 =
        (runOps64 t qs1).2 ++
          [(runOps64 t qs1).1.finish, (runOps64 t qs1).1.finish] := by
  refine ⟨?_, ?_, ?_, ?_⟩
  · rw [runOps32_append, runOps32_append]
    simp only [runOps32]
  · rw [runOps32_append]
    simp only [runOps32]
  · rw [runOps64_append, runOps64_append]
    simp only [runOps64]
  · rw [runOps64_append]
    simp only [runOps64]

/-- Claim C6: `reset` and `update` never fail — the C entry points return
`XXH_OK` for every state, every seed and every byte sequence actually passed
from Rust (a non-null slice), so the `assert_eq!(r, XXH_OK)` checks in the
wrappers never panic. -/
theorem reset_update_never_fail (s : State32) (t : State64)
    (d e : List Nat) (seed32 seed64 : Nat) :
    (XXH32_update_c s (some d)).1 = XXH_OK ∧
    (XXH32_reset_c s seed32).1 = XXH_OK ∧
    (XXH64_update_c t (some e)).1 = XXH_OK ∧
    (XXH64_reset_c t seed64).1 = XXH_OK :=
  ⟨rfl, rfl, rfl, rfl⟩

/-- Counterexample for claim C7: `finish()` on a freshly created, never-reset
state is not rejected — it returns the defined values 46947589 and
17241709254077376921 (the seed-0 empty hashes), so there is no fail-fast
precondition check. -/
theorem uninitialized_finish_defined :
    State32.new.finish = 46947589 ∧
    State64.new.finish = 17241709254077376921 := by
  refine ⟨?_, ?_⟩ <;> decide

/-- Amended claim C7: reading a hash from a never-reset hasher is not
rejected by any precondition check; the zero-initialized state makes the
hasher behave like one reset with seed 0 (for totals under one block), so
`finish` returns the defined value `hash32`/`hash64` of the input so far at
seed 0. -/
theorem uninitialized_finish_behavior :
    State32.new.finish = hash32 [] 0 ∧
    State64.new.finish = hash64 [] 0 ∧
    (∀ d : List Nat, d.length < 16 →
      (State32.new.update d).finish = hash32 d 0) ∧
    (∀ d : List Nat, d.length < 32 →
      (State64.new.update d).finish = hash64 d 0) :=
  ⟨by decide, by decide, State32.finish_new_update32, State64.finish_new_update64⟩

/-- Witness for the amended claim C7, at the inputs `[1, 2, 3]` and `[9]`. -/
theorem uninitialized_finish_behavior_witness :
    (([1, 2, 3] : List Nat).length < 16 ∧
      (State32.new.update [1, 2, 3]).finish = hash32 [1, 2, 3] 0) ∧
    (([9] : List Nat).length < 32 ∧
      (State64.new.update [9]).finish = hash64 [9] 0) :=
  ⟨⟨by decide, uninitialized_finish_behavior.2.2.1 [1, 2, 3] (by decide)⟩,
    ⟨by decide, uninitialized_finish_behavior.2.2.2 [9] (by decide)⟩⟩

/-- Claim C8: after a reset followed by any sequence of `update` and `finish`
calls, the internal buffer holds strictly fewer bytes than one block (16 for
32-bit, 32 for 64-bit), and the fully consumed blocks (a whole number of
blocks) followed by the buffered bytes reconstruct exactly the byte stream
passed to `update` since the reset. -/
theorem buffer_invariant (s0 : State32) (t0 : State64) (seed32 seed64 : Nat)
    (ops : List Op32) (qs : List Op64) :
    ((runOps32 (s0.reset seed32) ops).1.mem.length < 16 ∧
      ∃ c : List Nat, c.length % 16 = 0 ∧
        c ++ (runOps32 (s0.reset seed32) ops).1.mem = opsData32 ops) ∧
    ((runOps64 (t0.reset seed64) qs).1.mem.length < 32 ∧
      ∃ c : List Nat, c.length % 32 = 0 ∧
        c ++ (runOps64 (t0.reset seed64) qs).1.mem = opsData64 qs) := by
  constructor
  · have h := runOps32_mem ops (s0.reset seed32) (by simp [State32.reset])
    simpa only [State32.reset, List.nil_append] using h
  · have h := runOps64_mem qs (t0.reset seed64) (by simp [State64.reset])
    simpa only [State64.reset, List.nil_append] using h

/-- Claim C9: there is a non-empty input and two distinct seeds on which both
`hash32` and `hash64` give different outputs for the two seeds. -/
theorem seed_sensitivity :
    ∃ (d : List Nat) (s1 s2 : Nat), d ≠ [] ∧ s1 ≠ s2 ∧
      hash32 d s1 ≠ hash32 d s2 ∧ hash64 d s1 ≠ hash64 d s2 :=
  ⟨[1], 0, 1, by decide, by decide, by decide, by decide⟩

/-- Claim C10: a never-reset hasher behaves, for totals under one block, as
if `reset(0)` had been called — any sequence of `update` calls totalling
fewer than 16 bytes (resp. 32 bytes) followed by `finish` returns the
one-shot hash of the concatenated input at seed 0. -/
theorem new_state_acts_as_seed_zero (chunks : List (List Nat)) :
    (chunks.flatten.length < 16 →
      (List.foldl State32.update State32.new chunks).finish =
        hash32 chunks.flatten 0) ∧
    (chunks.flatten.length < 32 →
      (List.foldl State64.update State64.new chunks).finish =
        hash64 chunks.flatten 0) := by
  constructor
  · intro h
    rw [State32.foldl_update32 State32.new (by decide) chunks]
    exact State32.finish_new_update32 _ h
  · intro h
    rw [State64.foldl_update64 State64.new (by decide) chunks]
    exact State64.finish_new_update64 _ h

/-- Witness for claim C10, at the chunk lists `[[1], [2, 3]]` and `[[4]]`. -/
theorem new_state_acts_as_seed_zero_witness :
    (([[1], [2, 3]] : List (List Nat)).flatten.length < 16 ∧
      (List.foldl State32.update State32.new [[1], [2, 3]]).finish =
        hash32 ([[1], [2, 3]] : List (List Nat)).flatten 0) ∧
    (([[4]] : List (List Nat)).flatten.length < 32 ∧
      (List.foldl State64.update State64.new [[4]]).finish =
        hash64 ([[4]] : List (List Nat)).flatten 0) :=
  ⟨⟨by decide, (new_state_acts_as_seed_zero [[1], [2, 3]]).1 (by decide)⟩,
    ⟨by decide, (new_state_acts_as_seed_zero [[4]]).2 (by decide)⟩⟩

end XXHash2
